import Mathlib

/-!
Shallow embedding of the MPI tree-cluster communication layer
(`src/caffe/internode/tree_cluster.cpp`, class `MpiTreeClient`).

The embedding models:
* the topology functions `parent` and `children`;
* the request ledger (the `requests` staging vector and the
  `requests_to_process` working set) and the `poll_one` tick;
* the receive-completion dispatch (`received`) and the re-arming of the
  standing receive (`set_recv`);
* the send submission paths (`async_send_to_parent`,
  `async_send_to_children`) and the fan-out aggregation semantics of
  `BroadcastCallback`.

Transport behaviour (MPI_Test outcomes) is abstracted as an oracle keyed by
request identity; callback invocations are recorded as an event trace.
-/

namespace TreeCluster

/-- `MpiTreeClient::parent`: the root (rank 0) is its own parent; otherwise
the parent of `current` is `floor((current-1)/2)` (integer division). -/
def parent (current : Nat) : Nat :=
  if current = 0 then 0 else (current - 1) / 2

/-- `MpiTreeClient::children`: empty when fewer than two nodes; otherwise
`2*rank+1` is appended if it is below the node count, then `2*rank+2`
likewise. -/
def children (rank count : Nat) : List Nat :=
  if count < 2 then []
  else
    (if 2 * rank + 1 < count then [2 * rank + 1] else []) ++
    (if 2 * rank + 2 < count then [2 * rank + 2] else [])

/-- The kind of an outstanding operation: the standing receive, or a
non-blocking send to a destination rank. -/
inductive ReqKind where
  | recv : ReqKind
  | send (dest : Nat) : ReqKind
deriving DecidableEq, Repr

/-- An entry of the request ledger (`MpiRequest`): the model tags each
request with an identity `rid` standing for its `MPI_Request` handle. -/
structure MpiRequest where
  rid : Nat
  kind : ReqKind
deriving DecidableEq, Repr

/-- Whether a ledger entry is the standing receive. -/
def isRecv (r : MpiRequest) : Bool :=
  match r.kind with
  | ReqKind.recv => true
  | ReqKind.send _ => false

/-- Number of standing receives among a list of ledger entries. -/
def countRecv (rs : List MpiRequest) : Nat :=
  (rs.filter isRecv).length

/-- The mutable state of `MpiTreeClient` relevant to the claims:
registered handlers (by identity, in registration order), the `requests`
staging vector, the `requests_to_process` working set, and a counter used
to mint fresh request identities. -/
structure ClientState where
  myRank : Nat
  nodeCount : Nat
  handlers : List Nat
  requests : List MpiRequest
  requests_to_process : List MpiRequest
  nextRid : Nat
deriving DecidableEq, Repr

/-- The full ledger: working set plus staging, in the order `poll_one`
merges them. -/
def ledger (st : ClientState) : List MpiRequest :=
  st.requests_to_process ++ st.requests

/-- Transport oracle: for each request identity, whether `MPI_Test`
reports completion this tick, and the resolved `ok` flag, byte count and
sender rank extracted from the `MPI_Status`. -/
structure Transport where
  tready : Nat → Bool
  tok : Nat → Bool
  tsize : Nat → Nat
  tsender : Nat → Nat

/-- Observable callback activity during a tick: handler dispatch for
inbound messages, the error log of a failed receive, and the completion
callback of a send. -/
inductive Event where
  | receivedFromParent (handler : Nat) (size : Nat) : Event
  | receivedFromChild (handler : Nat) (size : Nat) (sender : Nat) : Event
  | recvFailedLog : Event
  | sentCallback (rid : Nat) (ok : Bool) : Event
deriving DecidableEq, Repr

/-- `MpiTreeClient::set_recv`: arms a fresh wildcard receive and pushes it
onto the `requests` staging vector. -/
def set_recv (st : ClientState) : ClientState :=
  { st with
      requests := st.requests ++ [⟨st.nextRid, ReqKind.recv⟩],
      nextRid := st.nextRid + 1 }

/-- The dispatch part of `MpiTreeClient::received`: on a successful
completion, every registered handler is invoked in registration order —
`received_from_parent(buffer, size)` when the sender is `parent()`,
otherwise `received_from_child(buffer, size, sender)`; on a failed
completion only an error is logged. -/
def receivedEvents (myRank : Nat) (handlers : List Nat)
    (ok : Bool) (size sender : Nat) : List Event :=
  if ok then
    if sender = parent myRank then
      handlers.map (fun h => Event.receivedFromParent h size)
    else
      handlers.map (fun h => Event.receivedFromChild h size sender)
  else
    [Event.recvFailedLog]

/-- `MpiTreeClient::received`: dispatch to the handlers (or log the
failure), then unconditionally re-arm the receive via `set_recv`. -/
def received (st : ClientState) (ok : Bool) (size sender : Nat) :
    ClientState × List Event :=
  (set_recv st, receivedEvents st.myRank st.handlers ok size sender)

/-- The callback of one ledger entry, as fired by `poll_one`: the standing
receive's callback is `received`; a send's callback is the sent-completion
callback bound at submission. -/
def fireCallback (tr : Transport) (st : ClientState) (r : MpiRequest) :
    ClientState × List Event :=
  match r.kind with
  | ReqKind.recv => received st (tr.tok r.rid) (tr.tsize r.rid) (tr.tsender r.rid)
  | ReqKind.send _ => (st, [Event.sentCallback r.rid (tr.tok r.rid)])

/-- The events a single ready entry's callback produces, as a function of
the handler list and rank only (both are constant during a tick). -/
def callbackEvents (tr : Transport) (myRank : Nat) (handlers : List Nat)
    (r : MpiRequest) : List Event :=
  match r.kind with
  | ReqKind.recv => receivedEvents myRank handlers (tr.tok r.rid) (tr.tsize r.rid) (tr.tsender r.rid)
  | ReqKind.send _ => [Event.sentCallback r.rid (tr.tok r.rid)]

/-- Fire the callbacks of the ready entries in order, threading the client
state (a receive's callback pushes a fresh receive into staging). -/
def fireAll (tr : Transport) (st : ClientState) (rs : List MpiRequest) :
    ClientState × List Event :=
  match rs with
  | [] => (st, [])
  | r :: rest =>
      let p := fireCallback tr st r
      let q := fireAll tr p.1 rest
      (q.1, p.2 ++ q.2)

/-- Concatenation of a list of event lists (left to right). -/
def flat : List (List Event) → List Event
  | [] => []
  | l :: ls => l ++ flat ls

/-- The entries of the merged working set found ready by `MPI_Test` this
tick, in working-set order (the order `std::stable_partition` leaves the
ready prefix in). -/
def readyOps (tr : Transport) (st : ClientState) : List MpiRequest :=
  (st.requests_to_process ++ st.requests).filter (fun r => tr.tready r.rid)

/-- `MpiTreeClient::poll_one`: merge staging into the working set, stable
partition by readiness, fire the callbacks of the ready prefix in order,
erase the consumed entries, and report the soft warning when more than 100
entries remain pending. Returns the new state, the event trace of the
tick, and the warning flag. -/
def poll_one (tr : Transport) (st : ClientState) :
    ClientState × List Event × Bool :=
  let work := st.requests_to_process ++ st.requests
  let readyList := work.filter (fun r => tr.tready r.rid)
  let pending := work.filter (fun r => !(tr.tready r.rid))
  let st0 : ClientState := { st with requests := [], requests_to_process := pending }
  let p := fireAll tr st0 readyList
  (p.1, p.2, decide (pending.length > 100))

/-- `MpiTreeClient::async_send_to_parent`: submits exactly one non-blocking
send whose destination is `parent(id())`, pushed onto staging; there is no
special case for the root. -/
def async_send_to_parent (st : ClientState) : ClientState :=
  let parent_id := parent st.myRank
  { st with
      requests := st.requests ++ [⟨st.nextRid, ReqKind.send parent_id⟩],
      nextRid := st.nextRid + 1 }

/-- `MpiTreeClient::async_send_to_children`: submits one non-blocking send
per child rank, all sharing one `BroadcastCallback`, each pushed onto
staging in child order. -/
def async_send_to_children (st : ClientState) : ClientState :=
  let ids := children st.myRank st.nodeCount
  { st with
      requests := st.requests ++
        ((List.range ids.length).zip ids).map
          (fun p => ⟨st.nextRid + p.1, ReqKind.send p.2⟩),
      nextRid := st.nextRid + ids.length }

/-- `MpiTreeClient::register_receive_handler`: appends to the handler list. -/
def register_receive_handler (st : ClientState) (h : Nat) : ClientState :=
  { st with handlers := st.handlers ++ [h] }

/-- Modelled from the spec: `BroadcastCallback`
(`caffe/internode/broadcast_callback.hpp`, not present under `src/`). A
shared counter starts at the number of child sends; each child completion
decrements it and ANDs its `ok` flag into an accumulator; when the counter
reaches zero the wrapped callback fires once with the accumulated `ok`.
The accumulator state of the fan-out. -/
structure FanoutState where
  remaining : Nat
  accOk : Bool
deriving DecidableEq, Repr

/-- Modelled from the spec: one child-send completion of the fan-out —
decrement the counter, AND the outcome in, and fire the wrapped callback
exactly when the counter reaches zero. Returns the new state and the list
of `on_done` invocations (each with its aggregate `ok`). -/
def fanoutComplete (st : FanoutState) (ok : Bool) : FanoutState × List Bool :=
  let st' : FanoutState := ⟨st.remaining - 1, st.accOk && ok⟩
  if st'.remaining = 0 then (st', [st'.accOk]) else (st', [])

/-- Modelled from the spec: run the fan-out aggregator over the sequence of
child-send outcomes, collecting every `on_done` invocation. -/
def fanoutRun (st : FanoutState) (oks : List Bool) : List Bool :=
  match oks with
  | [] => []
  | ok :: rest =>
      let p := fanoutComplete st ok
      p.2 ++ fanoutRun p.1 rest

/-- Modelled from the spec: the complete `on_done` activity of one
`async_send_to_children` call with `n` children whose sends complete with
outcomes `oks` — with an empty child list `on_done` fires immediately with
success. -/
def broadcastFires (n : Nat) (oks : List Bool) : List Bool :=
  if n = 0 then [true] else fanoutRun ⟨n, true⟩ oks

/-! ### Topology lemmas -/

/-- `children` is the ordered filter of the two candidate child ranks by
the node count; the `count < 2` early return is subsumed. -/
theorem children_eq_filter (rank count : Nat) :
    children rank count =
      [2 * rank + 1, 2 * rank + 2].filter (fun c => decide (c < count)) := by
  unfold children
  rcases Nat.lt_or_ge count 2 with h | h
  · have h1 : ¬ (2 * rank + 1 < count) := by omega
    have h2 : ¬ (2 * rank + 2 < count) := by omega
    simp [h, h1, h2, List.filter]
  · have h' : ¬ count < 2 := by omega
    by_cases h1 : 2 * rank + 1 < count <;> by_cases h2 : 2 * rank + 2 < count <;>
      simp [h', h1, h2, List.filter]

theorem mem_children (rank count c : Nat) (hc : c ∈ children rank count) :
    (c = 2 * rank + 1 ∨ c = 2 * rank + 2) ∧ c < count := by
  rw [children_eq_filter] at hc
  simp [List.mem_filter] at hc
  tauto

/-- `parent` of any candidate child rank recovers the rank. -/
theorem parent_of_child (rank c : Nat)
    (h : c = 2 * rank + 1 ∨ c = 2 * rank + 2) : parent c = rank := by
  unfold parent
  rcases h with h | h <;> subst h <;> rw [if_neg (by omega)] <;> omega

/-- C5: `parent` is a deterministic total function with no failure mode:
for every rank `r`, `parent r = 0` when `r = 0` and `⌊(r-1)/2⌋` otherwise. -/
theorem parent_total_closed_form (r : Nat) :
    parent r = if r = 0 then 0 else (r - 1) / 2 := rfl

/-- C6: for every rank and node count, `children rank count` is the ordered
sequence of those elements of `{2*rank+1, 2*rank+2}` below the node count:
it has at most 2 entries, is empty when the node count is below 2, and
never contains a rank at or above the node count. -/
theorem children_spec (rank count : Nat) :
    children rank count =
      [2 * rank + 1, 2 * rank + 2].filter (fun c => decide (c < count)) ∧
    (children rank count).length ≤ 2 ∧
    children rank 0 = [] ∧
    children rank 1 = [] ∧
    (children rank count).all (fun c => decide (c < count)) = true := by
  refine ⟨children_eq_filter rank count, ?_, ?_, ?_, ?_⟩
  · rw [children_eq_filter]
    calc ([2 * rank + 1, 2 * rank + 2].filter (fun c => decide (c < count))).length
        ≤ [2 * rank + 1, 2 * rank + 2].length := List.length_filter_le _ _
      _ = 2 := rfl
  · simp [children]
  · simp [children]
  · rw [children_eq_filter]
    simp [List.all_eq_true, List.mem_filter]

/-- C3: for every node count at least 1 and every rank below it, `parent`
applied to any entry of `children rank total` returns `rank`: the parent
and children functions are mutual inverses along tree edges. -/
theorem parent_children_inverse (total rank : Nat) (h1 : 1 ≤ total)
    (h2 : rank < total) (i : Nat) (hi : i < (children rank total).length) :
    parent ((children rank total).get ⟨i, hi⟩) = rank := by
  have hmem : (children rank total).get ⟨i, hi⟩ ∈ children rank total :=
    List.get_mem _ _ _
  exact parent_of_child rank _ (mem_children rank total _ hmem).1

/-- Witness for C3 at `total = 3`, `rank = 0`, child index 0. -/
theorem parent_children_inverse_witness :
    parent ((children 0 3).get ⟨0, by decide⟩) = 0 :=
  parent_children_inverse 3 0 (by decide) (by decide) 0 (by decide)

/-! ### Ledger and poller lemmas -/

theorem countRecv_append (a b : List MpiRequest) :
    countRecv (a ++ b) = countRecv a + countRecv b := by
  simp [countRecv, List.filter_append]

/-- A stable partition by readiness preserves the number of receives. -/
theorem countRecv_filter_partition (p : MpiRequest → Bool) (l : List MpiRequest) :
    countRecv (l.filter p) + countRecv (l.filter (fun r => !(p r))) = countRecv l := by
  induction l with
  | nil => rfl
  | cons r rest ih =>
    unfold countRecv at ih ⊢
    rcases Bool.eq_false_or_eq_true (p r) with hp | hp <;>
      rcases Bool.eq_false_or_eq_true (isRecv r) with hr | hr <;>
      simp [List.filter_cons, List.filter_filter, hp, hr] at ih ⊢ <;> omega

/-- Firing one callback never touches the working set, the handler list or
the identity, and adds a receive to staging exactly when the fired entry
was the standing receive. -/
theorem fireCallback_effect (tr : Transport) (st : ClientState) (r : MpiRequest) :
    (fireCallback tr st r).1.requests_to_process = st.requests_to_process ∧
    (fireCallback tr st r).1.handlers = st.handlers ∧
    (fireCallback tr st r).1.myRank = st.myRank ∧
    countRecv (fireCallback tr st r).1.requests =
      countRecv st.requests + countRecv [r] := by
  rcases r with ⟨rid, k⟩
  cases k with
  | recv =>
      refine ⟨rfl, rfl, rfl, ?_⟩
      simp [fireCallback, received, set_recv, countRecv_append, countRecv, isRecv]
  | send dest =>
      refine ⟨rfl, rfl, rfl, ?_⟩
      simp [fireCallback, countRecv, isRecv]

/-- Firing the whole ready prefix never touches the working set, the
handler list or the identity, and adds exactly one staged receive per
fired receive. -/
theorem fireAll_effect (tr : Transport) (st : ClientState) (rs : List MpiRequest) :
    (fireAll tr st rs).1.requests_to_process = st.requests_to_process ∧
    (fireAll tr st rs).1.handlers = st.handlers ∧
    (fireAll tr st rs).1.myRank = st.myRank ∧
    countRecv (fireAll tr st rs).1.requests =
      countRecv st.requests + countRecv rs := by
  induction rs generalizing st with
  | nil => simp [fireAll, countRecv]
  | cons r rest ih =>
      have h1 := fireCallback_effect tr st r
      have h2 := ih (fireCallback tr st r).1
      simp only [fireAll]
      refine ⟨?_, ?_, ?_, ?_⟩
      · rw [h2.1, h1.1]
      · rw [h2.2.1, h1.2.1]
      · rw [h2.2.2.1, h1.2.2.1]
      · rw [h2.2.2.2, h1.2.2.2]
        have : countRecv (r :: rest) = countRecv [r] + countRecv rest := by
          unfold countRecv
          by_cases hr : isRecv r <;> simp [List.filter_cons, hr] <;> omega
        omega

/-- The events of one fired entry depend only on the rank and the handler
list, both constant during a tick. -/
theorem fireCallback_events (tr : Transport) (st : ClientState) (r : MpiRequest) :
    (fireCallback tr st r).2 = callbackEvents tr st.myRank st.handlers r := by
  rcases r with ⟨rid, k⟩
  cases k <;> rfl

/-- The event trace of the ready prefix is the concatenation, in order, of
each entry's callback events. -/
theorem fireAll_events (tr : Transport) (st : ClientState) (rs : List MpiRequest) :
    (fireAll tr st rs).2 = flat (rs.map (callbackEvents tr st.myRank st.handlers)) := by
  induction rs generalizing st with
  | nil => rfl
  | cons r rest ih =>
      have h1 := fireCallback_effect tr st r
      simp only [fireAll, List.map, flat]
      rw [fireCallback_events, ih (fireCallback tr st r).1, h1.2.1, h1.2.2.1]

/-- C1: receives are perpetually re-armed. If the ledger (working set plus
staging) holds exactly one standing receive when a `poll_one` tick starts,
it holds exactly one when the tick returns — whether or not the receive
completed this tick, and whatever its `ok` outcome was — because
`received` unconditionally calls `set_recv` before the tick ends.
Moreover every receive that completed this tick put a fresh receive into
staging before the tick returned. -/
theorem receive_always_rearmed (tr : Transport) (st : ClientState)
    (h : countRecv (ledger st) = 1) :
    countRecv (ledger (poll_one tr st).1) = 1 ∧
    countRecv (poll_one tr st).1.requests = countRecv (readyOps tr st) := by
  have heff := fireAll_effect tr
    { st with requests := [],
              requests_to_process :=
                (st.requests_to_process ++ st.requests).filter
                  (fun r => !(tr.tready r.rid)) }
    ((st.requests_to_process ++ st.requests).filter (fun r => tr.tready r.rid))
  have hpart := countRecv_filter_partition (fun r => tr.tready r.rid)
    (st.requests_to_process ++ st.requests)
  unfold ledger at h ⊢
  simp only [poll_one, readyOps]
  rw [countRecv_append, heff.1, heff.2.2.2]
  simp only [countRecv, List.filter_nil, List.length_nil] at heff ⊢
  unfold countRecv at hpart h
  omega

/-- Witness for C1: a singleton ledger holding only the standing receive,
with a transport that completes it successfully. -/
theorem receive_always_rearmed_witness :
    countRecv (ledger ⟨0, 1, [], [⟨0, ReqKind.recv⟩], [], 1⟩) = 1 ∧
    (countRecv (ledger (poll_one
        ⟨fun _ => true, fun _ => true, fun _ => 0, fun _ => 0⟩
        ⟨0, 1, [], [⟨0, ReqKind.recv⟩], [], 1⟩).1) = 1 ∧
     countRecv (poll_one
        ⟨fun _ => true, fun _ => true, fun _ => 0, fun _ => 0⟩
        ⟨0, 1, [], [⟨0, ReqKind.recv⟩], [], 1⟩).1.requests =
       countRecv (readyOps
        ⟨fun _ => true, fun _ => true, fun _ => 0, fun _ => 0⟩
        ⟨0, 1, [], [⟨0, ReqKind.recv⟩], [], 1⟩)) :=
  ⟨by decide, receive_always_rearmed _ _ (by decide)⟩

/-- C4: within a single `poll_one` tick, the callbacks of the operations
found ready fire in the order the poller finds them ready (the ready
prefix of the stable partition, in working-set order): the tick's event
trace is the in-order concatenation of each ready entry's callback events.
Across ticks no ordering holds between independently submitted sends: in
the concrete run below, the send with identity 2, submitted after the send
with identity 1, has its callback fire in an earlier tick because the
transport reports it ready first. -/
theorem tick_callback_ordering :
    (∀ (tr : Transport) (st : ClientState),
      (poll_one tr st).2.1 =
        flat ((readyOps tr st).map (callbackEvents tr st.myRank st.handlers))) ∧
    (poll_one ⟨fun i => i == 2, fun _ => true, fun _ => 0, fun _ => 0⟩
        ⟨0, 1, [], [⟨1, ReqKind.send 0⟩, ⟨2, ReqKind.send 0⟩], [], 3⟩).2.1 =
      [Event.sentCallback 2 true] ∧
    (poll_one ⟨fun _ => true, fun _ => true, fun _ => 0, fun _ => 0⟩
        (poll_one ⟨fun i => i == 2, fun _ => true, fun _ => 0, fun _ => 0⟩
          ⟨0, 1, [], [⟨1, ReqKind.send 0⟩, ⟨2, ReqKind.send 0⟩], [], 3⟩).1).2.1 =
      [Event.sentCallback 1 true] := by
  refine ⟨?_, by decide, by decide⟩
  intro tr st
  simp only [poll_one, readyOps]
  rw [fireAll_events]

/-- With an all-send list, each entry contributes exactly its one
sent-completion callback event. -/
theorem flat_callbackEvents_sends (tr : Transport) (myRank : Nat)
    (handlers : List Nat) (ops : List MpiRequest)
    (hsend : ∀ r ∈ ops, isRecv r = false) :
    flat (ops.map (callbackEvents tr myRank handlers)) =
      ops.map (fun r => Event.sentCallback r.rid (tr.tok r.rid)) := by
  induction ops with
  | nil => rfl
  | cons r rest ih =>
      have hr : isRecv r = false := hsend r (List.mem_cons_self r rest)
      have hrest : ∀ x ∈ rest, isRecv x = false :=
        fun x hx => hsend x (List.mem_cons_of_mem r hx)
      rcases r with ⟨rid, k⟩
      cases k with
      | recv => simp [isRecv] at hr
      | send dest =>
          simp only [List.map, flat, callbackEvents, ih hrest]
          rfl

/-- C7: when more than 100 entries remain pending after a tick, the soft
warning fires, but nothing is dropped or throttled: with every submitted
operation unresolved, the tick returns the whole submission list as the
working set in order, fires no callback, and reports the warning; once the
transport reports the operations ready, a subsequent tick fires every
operation's completion callback and empties the working set. -/
theorem backpressure_warning (rank count nextRid : Nat) (handlers : List Nat)
    (ops : List MpiRequest) (h100 : 100 < ops.length)
    (hsend : ∀ r ∈ ops, isRecv r = false) :
    (poll_one ⟨fun _ => false, fun _ => true, fun _ => 0, fun _ => 0⟩
        ⟨rank, count, handlers, ops, [], nextRid⟩).2.2 = true ∧
    (poll_one ⟨fun _ => false, fun _ => true, fun _ => 0, fun _ => 0⟩
        ⟨rank, count, handlers, ops, [], nextRid⟩).1.requests_to_process = ops ∧
    (poll_one ⟨fun _ => false, fun _ => true, fun _ => 0, fun _ => 0⟩
        ⟨rank, count, handlers, ops, [], nextRid⟩).2.1 = [] ∧
    (poll_one ⟨fun _ => true, fun _ => true, fun _ => 0, fun _ => 0⟩
        (poll_one ⟨fun _ => false, fun _ => true, fun _ => 0, fun _ => 0⟩
          ⟨rank, count, handlers, ops, [], nextRid⟩).1).2.1 =
      ops.map (fun r => Event.sentCallback r.rid true) ∧
    (poll_one ⟨fun _ => true, fun _ => true, fun _ => 0, fun _ => 0⟩
        (poll_one ⟨fun _ => false, fun _ => true, fun _ => 0, fun _ => 0⟩
          ⟨rank, count, handlers, ops, [], nextRid⟩).1).1.requests_to_process = [] := by
  have hfirst :
      poll_one ⟨fun _ => false, fun _ => true, fun _ => 0, fun _ => 0⟩
        ⟨rank, count, handlers, ops, [], nextRid⟩ =
      (⟨rank, count, handlers, [], ops, nextRid⟩, [], decide (ops.length > 100)) := by
    simp [poll_one, fireAll]
  rw [hfirst]
  have hsecond₁ :
      (poll_one ⟨fun _ => true, fun _ => true, fun _ => 0, fun _ => 0⟩
        ⟨rank, count, handlers, [], ops, nextRid⟩).2.1 =
      ops.map (fun r => Event.sentCallback r.rid true) := by
    simp only [poll_one]
    rw [fireAll_events]
    simp only [List.append_nil, List.filter_true]
    rw [flat_callbackEvents_sends _ _ _ _ hsend]
  have hsecond₂ :
      (poll_one ⟨fun _ => true, fun _ => true, fun _ => 0, fun _ => 0⟩
        ⟨rank, count, handlers, [], ops, nextRid⟩).1.requests_to_process = [] := by
    have heff := fireAll_effect ⟨fun _ => true, fun _ => true, fun _ => 0, fun _ => 0⟩
      (⟨rank, count, handlers, [],
        (ops ++ []).filter (fun _ => !true), nextRid⟩ : ClientState)
      ((ops ++ []).filter (fun _ => true))
    simp only [poll_one]
    rw [heff.1]
    simp
  refine ⟨by simp [decide_eq_true_eq]; omega, rfl, rfl, hsecond₁, hsecond₂⟩

/-- Witness for C7: 101 unresolved sends staged before any tick trigger
the warning and none is dropped. -/
theorem backpressure_warning_witness :
    100 < ((List.range 101).map
      (fun i => (⟨i, ReqKind.send 0⟩ : MpiRequest))).length ∧
    (poll_one ⟨fun _ => false, fun _ => true, fun _ => 0, fun _ => 0⟩
        ⟨0, 1, [],
          (List.range 101).map (fun i => (⟨i, ReqKind.send 0⟩ : MpiRequest)),
          [], 200⟩).2.2 = true ∧
    (poll_one ⟨fun _ => false, fun _ => true, fun _ => 0, fun _ => 0⟩
        ⟨0, 1, [],
          (List.range 101).map (fun i => (⟨i, ReqKind.send 0⟩ : MpiRequest)),
          [], 200⟩).1.requests_to_process =
      (List.range 101).map (fun i => (⟨i, ReqKind.send 0⟩ : MpiRequest)) :=
  ⟨by decide,
   ((backpressure_warning 0 1 200 [] _ (by decide)
      (by decide)).1),
   ((backpressure_warning 0 1 200 [] _ (by decide)
      (by decide)).2.1)⟩

/-! ### Fan-out aggregation -/

/-- Running the aggregator from a counter equal to the number of
outstanding outcomes fires the wrapped callback exactly once, with the
accumulator ANDed over all outcomes. -/
theorem fanoutRun_all (oks : List Bool) (acc : Bool) (h : oks ≠ []) :
    fanoutRun ⟨oks.length, acc⟩ oks = [acc && oks.all id] := by
  induction oks generalizing acc with
  | nil => cases h rfl
  | cons b rest ih =>
      cases rest with
      | nil => simp [fanoutRun, fanoutComplete, List.all]
      | cons c rest2 =>
          have h1 : fanoutComplete ⟨(b :: c :: rest2).length, acc⟩ b =
              (⟨(c :: rest2).length, acc && b⟩, []) := by
            simp [fanoutComplete]
          calc fanoutRun ⟨(b :: c :: rest2).length, acc⟩ (b :: c :: rest2)
              = (fanoutComplete ⟨(b :: c :: rest2).length, acc⟩ b).2 ++
                fanoutRun (fanoutComplete ⟨(b :: c :: rest2).length, acc⟩ b).1
                  (c :: rest2) := rfl
            _ = fanoutRun ⟨(c :: rest2).length, acc && b⟩ (c :: rest2) := by
                  rw [h1]
                  rfl
            _ = [(acc && b) && (c :: rest2).all id] := ih (acc && b) (by simp)
            _ = [acc && (b :: c :: rest2).all id] := by simp [Bool.and_assoc]

/-- One fan-out over `n` child sends whose outcomes are `oks` invokes
`on_done` exactly once, with aggregate `ok` the AND of all outcomes; the
empty child list fires immediately with success. -/
theorem broadcastFires_once (n : Nat) (oks : List Bool) (h : oks.length = n) :
    broadcastFires n oks = [oks.all id] := by
  subst h
  cases oks with
  | nil => rfl
  | cons b rest =>
      unfold broadcastFires
      rw [if_neg (by simp)]
      rw [fanoutRun_all (b :: rest) true (by simp)]
      simp

/-- C2: `async_send_to_children` submits exactly one send per child
(0, 1, or 2 in this topology), and however those child sends complete, the
caller's `on_done` callback is invoked exactly once, with aggregate `ok`
false exactly when some child send completed with `ok = false`; with no
children it fires immediately with success. -/
theorem fanout_on_done_once (st : ClientState) (oks : List Bool)
    (h : oks.length = (children st.myRank st.nodeCount).length) :
    broadcastFires (children st.myRank st.nodeCount).length oks = [oks.all id] ∧
    (async_send_to_children st).requests.length =
      st.requests.length + (children st.myRank st.nodeCount).length := by
  refine ⟨broadcastFires_once _ _ h, ?_⟩
  simp [async_send_to_children]

/-- Witness for C2 at rank 0 of a 5-node tree (children 1 and 2), with one
failed child send: `on_done` fires once with aggregate failure. -/
theorem fanout_on_done_once_witness :
    ([true, false] : List Bool).length = (children 0 5).length ∧
    (broadcastFires (children 0 5).length [true, false] =
        [([true, false] : List Bool).all id] ∧
     (async_send_to_children ⟨0, 5, [], [], [], 0⟩).requests.length =
       (⟨0, 5, [], [], [], 0⟩ : ClientState).requests.length +
         (children 0 5).length) :=
  ⟨by decide, fanout_on_done_once ⟨0, 5, [], [], [], 0⟩ [true, false] (by decide)⟩

/-! ### Receive dispatch -/

/-- C8: on every successful inbound receive completion, the dispatch in
`received` inspects the sender: when the sender is `parent()`, every
registered handler's parent-message entry point is invoked with
`(buffer, size)`; otherwise every handler's child-message entry point is
invoked with `(buffer, size, sender)` — in both cases all handlers run, in
registration order. -/
theorem dispatch_by_sender (st : ClientState) (size sender : Nat) :
    (received st true size sender).2 =
      if sender = parent st.myRank then
        st.handlers.map (fun h => Event.receivedFromParent h size)
      else
        st.handlers.map (fun h => Event.receivedFromChild h size sender) := rfl

/-- C10: when a receive completes with `ok = false`, no handler entry
point is invoked — the only event is the error log — and the receive is
still re-armed: a fresh standing receive is pushed onto staging. -/
theorem failed_receive_no_dispatch (st : ClientState) (size sender : Nat) :
    (received st false size sender).2 = [Event.recvFailedLog] ∧
    (received st false size sender).1.requests =
      st.requests ++ [⟨st.nextRid, ReqKind.recv⟩] :=
  ⟨rfl, rfl⟩

/-- C9: at the root (rank 0, whose parent is itself), `async_send_to_parent`
does not suppress the send: it still submits exactly one non-blocking send
whose destination is rank 0 itself. -/
theorem root_send_to_parent_not_suppressed (st : ClientState)
    (h : st.myRank = 0) :
    (async_send_to_parent st).requests =
      st.requests ++ [⟨st.nextRid, ReqKind.send 0⟩] := by
  simp [async_send_to_parent, h, parent]

/-- Witness for C9: a concrete root-rank client state. -/
theorem root_send_to_parent_not_suppressed_witness :
    (⟨0, 1, [], [], [], 0⟩ : ClientState).myRank = 0 ∧
    (async_send_to_parent ⟨0, 1, [], [], [], 0⟩).requests =
      (⟨0, 1, [], [], [], 0⟩ : ClientState).requests ++
        [⟨(⟨0, 1, [], [], [], 0⟩ : ClientState).nextRid, ReqKind.send 0⟩] :=
  ⟨rfl, root_send_to_parent_not_suppressed ⟨0, 1, [], [], [], 0⟩ rfl⟩

end TreeCluster
